import Mathlib

/-!
Verification of the `datacache` package (an in-process keyed record store).

The Go source (`types.go`, `datacache.go`) is shallowly embedded below.
Modelling choices, stated once here:

* `Key` in Go is `interface{}` with dynamic equality.  The source material
  uses both string keys and — in `ForceAddRec`'s deletion loop — the `int`
  loop index as a map key, so the embedding uses a concrete sum of integers
  and strings with decidable equality.
* Go stores `*Rec` pointers in `map[Key]*Rec`; several keys may alias one
  record and `ReAddRec` mutates the shared record.  The embedding splits the
  heap out explicitly: `cache` maps keys to record identifiers and `recs`
  maps identifiers to record values; `nextId` models fresh pointer
  allocation.
* Maps are association lists with lookup/insert/erase (`alookup`,
  `ainsert`, `aerase`); Go map semantics (unique keys) coincide with the
  first-match lookup used here.
* Mutexes are modelled by their held state: `pRecLock : Option Bool`
  (`none` is a nil `*sync.Mutex`).  Blocking acquisition and the store-level
  `sync.RWMutex` are not representable in this sequential embedding; the
  `...WOLock` variant carries each operation's body and the locking variant
  is the same state transformer.
* `LoadFunc` takes no arguments, so the registered loader is modelled by
  the value it would return; the iteration callback is kept as a function
  `P → Bool` and `Iterate` records the list of payloads it is applied to.
* The payload type `interface{}` is a type parameter `P`; a nil payload
  argument is `Option.none`.  The nil-receiver checks (`pDataCache == nil`)
  are not modelled: the receiver is a structure value.
-/

namespace Datacache

/-- A Go `Key` (`interface{}`): integers and strings suffice for every
behaviour exercised by the source, including `ForceAddRec`'s use of the
`int` loop index as a deletion key. -/
inductive Key where
  | intK : Int → Key
  | strK : String → Key
deriving DecidableEq

/-- The error values returned by the package (Go returns `error` strings;
only the distinction between the messages matters). -/
inductive CacheErr where
  /-- "NULL datacache or payload." -/
  | nilPayload : CacheErr
  /-- "Key ... exists." -/
  | keyExists : Key → CacheErr
  /-- "Key doesn't exist." / "Missing key ..." -/
  | keyNotFound : Key → CacheErr
  /-- "Already executed load-time ... sequence." -/
  | alreadyLoaded : CacheErr
  /-- "Nil datacache loader." -/
  | nilLoader : CacheErr
  /-- "Load function failed." -/
  | loadFailed : CacheErr
  /-- "Nil datacache iterator." -/
  | nilIterator : CacheErr
deriving DecidableEq

/-- First-match association-list lookup (Go map read `m[k]`). -/
def alookup {α β : Type} [DecidableEq α] (k : α) : List (α × β) → Option β
  | [] => none
  | e :: rest => if e.1 = k then some e.2 else alookup k rest

/-- Association-list insert-or-replace (Go map write `m[k] = v`). -/
def ainsert {α β : Type} [DecidableEq α] (k : α) (v : β) : List (α × β) → List (α × β)
  | [] => [(k, v)]
  | e :: rest => if e.1 = k then (k, v) :: rest else e :: ainsert k v rest

/-- Association-list erase (Go `delete(m, k)`). -/
def aerase {α β : Type} [DecidableEq α] (k : α) : List (α × β) → List (α × β)
  | [] => []
  | e :: rest => if e.1 = k then aerase k rest else e :: aerase k rest

/-- `types.go`: `Rec`.  `pUnlockRecLock` is declared in the source but never
used, and is omitted.  `pRecLock *sync.Mutex` is modelled by its held state
(`none` = nil pointer, `some b` = mutex with held flag `b`). -/
structure Rec (P : Type) where
  KeyList : List Key
  PDataRec : P
  isActive : Bool
  refcnt : Nat
  pRecLock : Option Bool
deriving DecidableEq

/-- `types.go`: `Payload`, one (alias set, payload) pair produced by a
loader. -/
structure Payload (P : Type) where
  KeyList : List Key
  PDataRec : P

/-- `types.go`: `DataCache`.  `cache CacheStore` (`map[Key]*Rec`) is split
into `cache : Key ⇀ id` and the pointer heap `recs : id ⇀ Rec`; `nextId`
models allocation of fresh `*Rec` pointers.  `cacheLock sync.RWMutex` is not
representable sequentially and is omitted.  `loadfn LoadFunc` takes no
arguments and is modelled by the value it returns. -/
structure DataCache (P : Type) where
  cache : List (Key × Nat)
  recs : List (Nat × Rec P)
  nextId : Nat
  loadfn : Option (Bool × List (Payload P))
  reciteratefn : Option (P → Bool)
  cnt : Int
  singletonFlag : Bool

variable {P : Type}

/-- `Create`: fresh store with empty map; `cnt` and `singletonFlag` take
Go's zero values. -/
def Create (loadFunc : Option (Bool × List (Payload P)))
    (iteratorFunc : Option (P → Bool)) : DataCache P :=
  { cache := []
    recs := []
    nextId := 0
    loadfn := loadFunc
    reciteratefn := iteratorFunc
    cnt := 0
    singletonFlag := false }

/-- `RecUnlock`: inspects the mutex's `state` word via reflection and calls
`Unlock` only when the bit `mutexLocked` is set; unlocking an unlocked or
nil lock (or a nil record) is a no-op.  The trailing `pRec = nil` in the
source only clears a local variable and has no caller-visible effect. -/
def RecUnlock : Option (Rec P) → Option (Rec P)
  | none => none
  | some r =>
    match r.pRecLock with
    | none => some r
    | some isLocked =>
      if isLocked then some { r with pRecLock := some false } else some r

/-- The first key of `keyList` already bound in the cache, if any: the
existence check of `AddRec`/`AddAndGetRec` (which returns on the first hit). -/
def firstExisting (c : List (Key × Nat)) : List Key → Option Key
  | [] => none
  | k :: rest => if (alookup k c).isSome then some k else firstExisting c rest

/-- `for i := range keyList { cache[keyList[i]] = pDataCacheRec }`. -/
def insertKeys (c : List (Key × Nat)) (id : Nat) : List Key → List (Key × Nat)
  | [] => c
  | k :: rest => insertKeys (ainsert k id c) id rest

/-- `for _, key := range keylist { delete(cache, key) }`. -/
def eraseKeys (c : List (Key × Nat)) : List Key → List (Key × Nat)
  | [] => c
  | k :: rest => eraseKeys (aerase k c) rest

/-- `ForceAddRec`'s deletion loop, verbatim from the source:
`for i := range keyList { if _, ok := cache[keyList[i]]; ok { delete(cache, i) } }`
— note it deletes the key `i` (the `int` loop index), not `keyList[i]`. -/
def forceDeleteLoop (c : List (Key × Nat)) (keyList : List Key) (i : Nat) :
    List (Key × Nat) :=
  match keyList with
  | [] => c
  | k :: rest =>
    let c2 := if (alookup k c).isSome then aerase (Key.intK (Int.ofNat i)) c else c
    forceDeleteLoop c2 rest (i + 1)

/-- Shared tail of every add: allocate a fresh `Rec` (`isActive = true`,
fresh unlocked mutex, `refcnt` zero value), map every supplied key to it and
increment `cnt`. -/
def newRecState (dc : DataCache P) (keyList : List Key) (p : P) : DataCache P :=
  { dc with
    recs := (dc.nextId, ⟨keyList, p, true, 0, some false⟩) :: dc.recs
    nextId := dc.nextId + 1
    cache := insertKeys dc.cache dc.nextId keyList
    cnt := dc.cnt + 1 }

/-- Mark the record `id`'s mutex as held (`prec.pRecLock.Lock()` on a record
reached from the cache; a nil mutex or dangling id leaves the state
unchanged — Go would panic on the former and cannot produce the latter). -/
def lockRecIn (dc : DataCache P) (id : Nat) : DataCache P :=
  match alookup id dc.recs with
  | none => dc
  | some r => { dc with recs := ainsert id { r with pRecLock := some true } dc.recs }

/-- `AddRecWOLock(keyList, pRec, recExistsErrFlag)`: optional existence
check, then allocate and link a fresh record. -/
def AddRecWOLock (dc : DataCache P) (keyList : List Key) (pRec : Option P)
    (recExistsErrFlag : Bool) : Except CacheErr (DataCache P × Int) :=
  match pRec with
  | none => .error .nilPayload
  | some p =>
    match (if recExistsErrFlag then firstExisting dc.cache keyList else none) with
    | some k => .error (.keyExists k)
    | none => .ok (newRecState dc keyList p, dc.cnt + 1)

/-- `AddRec`: same body as `AddRecWOLock` under the WR store-lock (not
modelled). -/
def AddRec (dc : DataCache P) (keyList : List Key) (pRec : Option P)
    (recExistsErrFlag : Bool) : Except CacheErr (DataCache P × Int) :=
  AddRecWOLock dc keyList pRec recExistsErrFlag

/-- `ForceAddRecWOLock(keyList, pRec)`: runs the (defective) positional
deletion loop, then allocates and links a fresh record unconditionally. -/
def ForceAddRecWOLock (dc : DataCache P) (keyList : List Key) (pRec : Option P) :
    Except CacheErr (DataCache P × Int) :=
  match pRec with
  | none => .error .nilPayload
  | some p =>
    .ok (newRecState { dc with cache := forceDeleteLoop dc.cache keyList 0 } keyList p,
      dc.cnt + 1)

/-- `ForceAddRec`: same body under the WR store-lock (not modelled). -/
def ForceAddRec (dc : DataCache P) (keyList : List Key) (pRec : Option P) :
    Except CacheErr (DataCache P × Int) :=
  ForceAddRecWOLock dc keyList pRec

/-- `AddAndGetRecWOLock`: like `AddRecWOLock`, then re-reads
`cache[keyList[0]]` and returns that record locked.  Go indexes `keyList[0]`
unconditionally and would panic on an empty key list; the model skips the
lock step in that (contract-violating) case.  The returned record pointer is
its identifier. -/
def AddAndGetRecWOLock (dc : DataCache P) (keyList : List Key) (pRec : Option P)
    (recExistsErrFlag : Bool) : Except CacheErr (DataCache P × Int × Option Nat) :=
  match pRec with
  | none => .error .nilPayload
  | some p =>
    match (if recExistsErrFlag then firstExisting dc.cache keyList else none) with
    | some k => .error (.keyExists k)
    | none =>
      let dc1 := newRecState dc keyList p
      match keyList.head? with
      | none => .ok (dc1, dc.cnt + 1, none)
      | some k0 =>
        match alookup k0 dc1.cache with
        | none => .ok (dc1, dc.cnt + 1, none)
        | some rid => .ok (lockRecIn dc1 rid, dc.cnt + 1, some rid)

/-- `AddAndGetRec`: same body under the WR store-lock (not modelled). -/
def AddAndGetRec (dc : DataCache P) (keyList : List Key) (pRec : Option P)
    (recExistsErrFlag : Bool) : Except CacheErr (DataCache P × Int × Option Nat) :=
  AddAndGetRecWOLock dc keyList pRec recExistsErrFlag

/-- `ForceAddAndGetRecWOLock`: positional deletion loop, fresh record,
returned locked. -/
def ForceAddAndGetRecWOLock (dc : DataCache P) (keyList : List Key)
    (pRec : Option P) : Except CacheErr (DataCache P × Int × Option Nat) :=
  match pRec with
  | none => .error .nilPayload
  | some p =>
    let dc1 := newRecState { dc with cache := forceDeleteLoop dc.cache keyList 0 } keyList p
    match keyList.head? with
    | none => .ok (dc1, dc.cnt + 1, none)
    | some k0 =>
      match alookup k0 dc1.cache with
      | none => .ok (dc1, dc.cnt + 1, none)
      | some rid => .ok (lockRecIn dc1 rid, dc.cnt + 1, some rid)

/-- `ForceAddAndGetRec`: same body under the WR store-lock (not modelled). -/
def ForceAddAndGetRec (dc : DataCache P) (keyList : List Key) (pRec : Option P) :
    Except CacheErr (DataCache P × Int × Option Nat) :=
  ForceAddAndGetRecWOLock dc keyList pRec

/-- State transformer of `ReAddRec(originalKey, newKey)` when the original
key is bound: append `newKey` to the shared record's `KeyList` and map
`newKey` to the same record.  A dangling record id cannot arise from the
source (the map stores live pointers) and leaves the state unchanged. -/
def reAddState (dc : DataCache P) (originalKey newKey : Key) : DataCache P :=
  match alookup originalKey dc.cache with
  | none => dc
  | some id =>
    match alookup id dc.recs with
    | none => dc
    | some r =>
      { dc with
        recs := ainsert id { r with KeyList := r.KeyList ++ [newKey] } dc.recs
        cache := ainsert newKey id dc.cache }

/-- `ReAddRecWOLock(originalKey, newKey)`. -/
def ReAddRecWOLock (dc : DataCache P) (originalKey newKey : Key) :
    Except CacheErr (DataCache P × Int) :=
  match alookup originalKey dc.cache with
  | none => .error (.keyNotFound originalKey)
  | some _ => .ok (reAddState dc originalKey newKey, dc.cnt)

/-- `ReAddRec`: same body under the WR store-lock (not modelled). -/
def ReAddRec (dc : DataCache P) (originalKey newKey : Key) :
    Except CacheErr (DataCache P × Int) :=
  ReAddRecWOLock dc originalKey newKey

/-- `ReAddAndGetRecWOLock`: like `ReAddRecWOLock`, then re-reads
`cache[newKey]` and returns that record locked. -/
def ReAddAndGetRecWOLock (dc : DataCache P) (originalKey newKey : Key) :
    Except CacheErr (DataCache P × Int × Option Nat) :=
  match alookup originalKey dc.cache with
  | none => .error (.keyNotFound originalKey)
  | some _ =>
    let dc1 := reAddState dc originalKey newKey
    match alookup newKey dc1.cache with
    | none => .ok (dc1, dc.cnt, none)
    | some rid => .ok (lockRecIn dc1 rid, dc.cnt, some rid)

/-- `ReAddAndGetRec`: same body under the WR store-lock (not modelled). -/
def ReAddAndGetRec (dc : DataCache P) (originalKey newKey : Key) :
    Except CacheErr (DataCache P × Int × Option Nat) :=
  ReAddAndGetRecWOLock dc originalKey newKey

/-- `DeleteKey(key)`: `delete(cache, key)` — one alias removed from the map;
the record's own `KeyList` is not touched.  The deferred `recover` guard
only logs and the method always returns a nil error. -/
def DeleteKey (dc : DataCache P) (key : Key) : DataCache P :=
  { dc with cache := aerase key dc.cache }

/-- State transformer shared by `DeleteRec`/`DeleteRecWOLock` when the key
is bound: after the rendezvous on the record's lock (a blocking
acquire-then-release with no net state change in this sequential model),
every key of the record's `KeyList` is deleted from the map and `cnt` is
decremented. -/
def deleteRecState (dc : DataCache P) (key : Key) : DataCache P :=
  match alookup key dc.cache with
  | none => dc
  | some id =>
    match alookup id dc.recs with
    | none => { dc with cnt := dc.cnt - 1 }
    | some r => { dc with cache := eraseKeys dc.cache r.KeyList, cnt := dc.cnt - 1 }

/-- `DeleteRec(key)`: fails when the key is absent; otherwise unlinks the
whole record and returns the decremented count. -/
def DeleteRec (dc : DataCache P) (key : Key) : Except CacheErr (DataCache P × Int) :=
  match alookup key dc.cache with
  | none => .error (.keyNotFound key)
  | some _ => .ok (deleteRecState dc key, dc.cnt - 1)

/-- `DeleteRecWOLock(key)`: same removal, but an absent key yields
`(true, 0)` rather than an error. -/
def DeleteRecWOLock (dc : DataCache P) (key : Key) : DataCache P × Bool × Int :=
  match alookup key dc.cache with
  | none => (dc, true, 0)
  | some _ => (deleteRecState dc key, true, dc.cnt - 1)

/-- `DeleteCacheWOLock`: ranges over the map deleting every key (each
record's lock is taken and released around its unlink — no net effect
sequentially); `cnt` is not touched. -/
def DeleteCacheWOLock (dc : DataCache P) : DataCache P × Bool :=
  ({ dc with cache := eraseKeys dc.cache (dc.cache.map Prod.fst) }, true)

/-- `DeleteCache`: same body under the WR store-lock (not modelled). -/
def DeleteCache (dc : DataCache P) : DataCache P × Bool :=
  DeleteCacheWOLock dc

/-- State transformer of `UpdateRecState` when the key is bound: set the
record's `isActive` under its own lock (taken and released inside). -/
def setRecActiveState (dc : DataCache P) (key : Key) (recState : Bool) : DataCache P :=
  match alookup key dc.cache with
  | none => dc
  | some id =>
    match alookup id dc.recs with
    | none => dc
    | some r => { dc with recs := ainsert id { r with isActive := recState } dc.recs }

/-- `UpdateRecStateWOLock(key, recState)`. -/
def UpdateRecStateWOLock (dc : DataCache P) (key : Key) (recState : Bool) :
    DataCache P × Bool :=
  match alookup key dc.cache with
  | none => (dc, false)
  | some _ => (setRecActiveState dc key recState, true)

/-- `UpdateRecState`: same body under the RD store-lock (not modelled). -/
def UpdateRecState (dc : DataCache P) (key : Key) (recState : Bool) :
    DataCache P × Bool :=
  UpdateRecStateWOLock dc key recState

/-- `GetRecWOLock(key)`: point lookup; the found record is returned still
locked (the boolean is the success flag, the identifier the `*Rec`). -/
def GetRecWOLock (dc : DataCache P) (key : Key) : DataCache P × Bool × Option Nat :=
  match alookup key dc.cache with
  | none => (dc, false, none)
  | some id => (lockRecIn dc id, true, some id)

/-- `GetRec`: same body under the RD store-lock (not modelled). -/
def GetRec (dc : DataCache P) (key : Key) : DataCache P × Bool × Option Nat :=
  GetRecWOLock dc key

/-- `GetCnt`: counter read (under the WR store-lock in the source). -/
def GetCnt (dc : DataCache P) : Bool × Int :=
  (true, dc.cnt)

/-- Result of `Load`: final store, success flag, error. -/
structure LoadOut (P : Type) where
  st : DataCache P
  ok : Bool
  err : Option CacheErr

/-- Result of `Iterate`/`LoadAndIterate`: final store, success flag, error,
and the payloads passed to the iteration callback, one entry per call (a
`none` payload would require a dangling record id, which the source cannot
produce). -/
structure IterOut (P : Type) where
  st : DataCache P
  ok : Bool
  err : Option CacheErr
  calls : List (Option P)

/-- `Load`'s loop: one fresh record per `Payload`, all its aliases mapped to
it.  `cnt` is handled by the caller (`cnt = len(recList)`). -/
def loadRecords (dc : DataCache P) : List (Payload P) → DataCache P
  | [] => dc
  | pl :: rest =>
    loadRecords
      { dc with
        recs := (dc.nextId, ⟨pl.KeyList, pl.PDataRec, true, 0, some false⟩) :: dc.recs
        nextId := dc.nextId + 1
        cache := insertKeys dc.cache dc.nextId pl.KeyList }
      rest

/-- `Load`'s deferred epilogue: the one-shot flag is set only when no
iteration callback is registered (`if reciteratefn == nil`). -/
def loadDefer (dc : DataCache P) : DataCache P :=
  if dc.reciteratefn.isNone then { dc with singletonFlag := true } else dc

/-- `Load` before its deferred epilogue. -/
def loadBody (dc : DataCache P) (isLoaderProvided : Bool) : LoadOut P :=
  if dc.singletonFlag then ⟨dc, false, some .alreadyLoaded⟩
  else
    match dc.loadfn with
    | none =>
      if !isLoaderProvided then ⟨dc, true, none⟩ else ⟨dc, false, some .nilLoader⟩
    | some (isOK, recList) =>
      if !isOK then ⟨dc, false, some .loadFailed⟩
      else ⟨{ loadRecords dc recList with cnt := (recList.length : Int) }, true, none⟩

/-- `Load(isLoaderProvided)`: one-shot guarded bulk population. -/
def Load (dc : DataCache P) (isLoaderProvided : Bool) : LoadOut P :=
  let o := loadBody dc isLoaderProvided
  ⟨loadDefer o.st, o.ok, o.err⟩

/-- `Iterate(cacheName, isIteratorProvided)`: ranges over the cache *map*
(one callback call per key entry, with no per-record locking); the deferred
epilogue sets the one-shot flag on every return path. -/
def Iterate (dc : DataCache P) (cacheName : String) (isIteratorProvided : Bool) :
    IterOut P :=
  let o : IterOut P :=
    if dc.singletonFlag then ⟨dc, false, some .alreadyLoaded, []⟩
    else
      match dc.reciteratefn with
      | none =>
        if !isIteratorProvided then ⟨dc, true, none, []⟩
        else ⟨dc, false, some .nilIterator, []⟩
      | some _ =>
        ⟨dc, true, none, dc.cache.map fun e => (alookup e.2 dc.recs).map Rec.PDataRec⟩
  ⟨{ o.st with singletonFlag := true }, o.ok, o.err, o.calls⟩

/-- The store `Load`'s loop leaves behind on a successful load: one record
per pair, `cnt = len(recList)`. -/
def loadedState (dc : DataCache P) (recList : List (Payload P)) : DataCache P :=
  { loadRecords dc recList with cnt := (recList.length : Int) }

/-- `LoadAndIterate(isLoaderProvided, isIteratorProvided)`: `Load`'s body
followed by `Iterate`'s loop under one guard; the deferred epilogue sets the
one-shot flag unconditionally. -/
def LoadAndIterate (dc : DataCache P) (isLoaderProvided isIteratorProvided : Bool) :
    IterOut P :=
  let o : IterOut P :=
    if dc.singletonFlag then ⟨dc, false, some .alreadyLoaded, []⟩
    else
      match dc.loadfn with
      | none =>
        if !isLoaderProvided then ⟨dc, true, none, []⟩ else ⟨dc, false, some .nilLoader, []⟩
      | some (isOK, recList) =>
        if !isOK then ⟨dc, false, some .loadFailed, []⟩
        else
          let dc1 := { loadRecords dc recList with cnt := (recList.length : Int) }
          match dc1.reciteratefn with
          | none =>
            if !isIteratorProvided then ⟨dc1, true, none, []⟩
            else ⟨dc1, false, some .nilIterator, []⟩
          | some _ =>
            ⟨dc1, true, none, dc1.cache.map fun e => (alookup e.2 dc1.recs).map Rec.PDataRec⟩
  ⟨{ o.st with singletonFlag := true }, o.ok, o.err, o.calls⟩

/-- The store a fallible add/re-add leaves behind: Go returns before any
mutation on the error paths, so an error leaves the receiver untouched. -/
def exState (dc : DataCache P) : Except CacheErr (DataCache P × Int) → DataCache P
  | .ok (dc2, _) => dc2
  | .error _ => dc

/-- `exState` for the `AndGet` result shape. -/
def exStateG (dc : DataCache P) :
    Except CacheErr (DataCache P × Int × Option Nat) → DataCache P
  | .ok (dc2, _, _) => dc2
  | .error _ => dc

/-- Alias symmetry: every record reachable through the cache is backed by a
record value whose `KeyList` consists of exactly the keys that resolve to
it. -/
def AliasSym (dc : DataCache P) : Prop :=
  ∀ id : Nat, (∃ k, alookup k dc.cache = some id) →
    ∃ r : Rec P, alookup id dc.recs = some r ∧
      ∀ k : Key, alookup k dc.cache = some id ↔ k ∈ r.KeyList

/-- Structural invariant carried through the reachability induction: every
record identifier in use is below the allocation counter, and alias
symmetry holds. -/
structure Inv (dc : DataCache P) : Prop where
  cacheFresh : ∀ k id, alookup k dc.cache = some id → id < dc.nextId
  recsFresh : ∀ id r, alookup id dc.recs = some r → id < dc.nextId
  sym : AliasSym dc

/-- One application of an operation that respects the aliasing discipline:
adds with the existence check on, re-adds whose new key is not yet bound,
whole-record deletes, lookups and state toggles.  Failing calls leave the
store unchanged (`exState`). -/
inductive GoodStep (P : Type) : DataCache P → DataCache P → Prop where
  | addRec (dc : DataCache P) (keyList : List Key) (pRec : Option P) :
      GoodStep P dc (exState dc (AddRec dc keyList pRec true))
  | addAndGetRec (dc : DataCache P) (keyList : List Key) (pRec : Option P) :
      GoodStep P dc (exStateG dc (AddAndGetRec dc keyList pRec true))
  | reAddRec (dc : DataCache P) (originalKey newKey : Key)
      (h : alookup newKey dc.cache = none) :
      GoodStep P dc (exState dc (ReAddRec dc originalKey newKey))
  | reAddAndGetRec (dc : DataCache P) (originalKey newKey : Key)
      (h : alookup newKey dc.cache = none) :
      GoodStep P dc (exStateG dc (ReAddAndGetRec dc originalKey newKey))
  | deleteRec (dc : DataCache P) (key : Key) :
      GoodStep P dc (exState dc (DeleteRec dc key))
  | deleteRecWOLock (dc : DataCache P) (key : Key) :
      GoodStep P dc (DeleteRecWOLock dc key).1
  | getRec (dc : DataCache P) (key : Key) :
      GoodStep P dc (GetRec dc key).1
  | updateRecState (dc : DataCache P) (key : Key) (b : Bool) :
      GoodStep P dc (UpdateRecState dc key b).1

/-- Stores reachable from `Create` by `GoodStep` operations. -/
inductive Reachable (P : Type) : DataCache P → Prop where
  | create (lf : Option (Bool × List (Payload P))) (rf : Option (P → Bool)) :
      Reachable P (Create lf rf)
  | step {dc dc' : DataCache P} :
      Reachable P dc → GoodStep P dc dc' → Reachable P dc'

/-- One call in a sequence of full adds and full deletes (claim C8); the
`WOLock` variants are the same state transformers and are covered by these
constructors. -/
inductive CacheOp (P : Type) where
  | add (keyList : List Key) (pRec : Option P) (flag : Bool) : CacheOp P
  | forceAdd (keyList : List Key) (pRec : Option P) : CacheOp P
  | addAndGet (keyList : List Key) (pRec : Option P) (flag : Bool) : CacheOp P
  | forceAddAndGet (keyList : List Key) (pRec : Option P) : CacheOp P
  | delRec (key : Key) : CacheOp P

/-- Apply one operation; the two booleans record "this call was a
successful add" and "this call was a successful `DeleteRec`". -/
def applyOp (dc : DataCache P) : CacheOp P → DataCache P × Bool × Bool
  | .add keyList pRec flag =>
    match AddRec dc keyList pRec flag with
    | .ok (dc2, _) => (dc2, true, false)
    | .error _ => (dc, false, false)
  | .forceAdd keyList pRec =>
    match ForceAddRec dc keyList pRec with
    | .ok (dc2, _) => (dc2, true, false)
    | .error _ => (dc, false, false)
  | .addAndGet keyList pRec flag =>
    match AddAndGetRec dc keyList pRec flag with
    | .ok (dc2, _, _) => (dc2, true, false)
    | .error _ => (dc, false, false)
  | .forceAddAndGet keyList pRec =>
    match ForceAddAndGetRec dc keyList pRec with
    | .ok (dc2, _, _) => (dc2, true, false)
    | .error _ => (dc, false, false)
  | .delRec key =>
    match DeleteRec dc key with
    | .ok (dc2, _) => (dc2, false, true)
    | .error _ => (dc, false, false)

/-- Run a sequence of operations, counting successful full adds (`N`) and
successful full deletes (`M`). -/
def runOps (dc : DataCache P) : List (CacheOp P) → DataCache P × Nat × Nat
  | [] => (dc, 0, 0)
  | op :: rest =>
    let s := applyOp dc op
    let t := runOps s.1 rest
    (t.1, t.2.1 + (if s.2.1 then 1 else 0), t.2.2 + (if s.2.2 then 1 else 0))

/-- C1 counterexample state: add one record under two aliases, then
`DeleteKey` one of them — the surviving record's `KeyList` still holds the
deleted alias. -/
def c1CexState : DataCache Unit :=
  let dc0 : DataCache Unit := Create none none
  let dc1 := exState dc0 (AddRec dc0 [Key.intK 1, Key.intK 2] (some ()) true)
  DeleteKey dc1 (Key.intK 1)

/-- C2 failing input: a record under the integer key `0` and another under
the string key `"a"`. -/
def c2Pre : DataCache Unit :=
  let dc0 : DataCache Unit := Create none none
  let dc1 := exState dc0 (AddRec dc0 [Key.intK 0] (some ()) true)
  exState dc1 (AddRec dc1 [Key.strK "a"] (some ()) true)

/-- C2: `ForceAddRec(["a"], p)` on `c2Pre` — the deletion loop removes the
map entry of the unrelated integer key `0` (the loop index). -/
def c2Post : DataCache Unit :=
  exState c2Pre (ForceAddRec c2Pre [Key.strK "a"] (some ()))

/-- C3 loader output: one record with two aliases. -/
def c3RecList : List (Payload Unit) :=
  [⟨[Key.intK 1, Key.intK 2], ()⟩]

/-- C3 input: a fresh store whose loader yields one record with two aliases
and which has an iteration callback registered. -/
def c3Base : DataCache Unit :=
  Create (some (true, c3RecList)) (some fun _ => true)

/-- C3 input after `Load`. -/
def c3State : DataCache Unit :=
  (Load c3Base true).st

/-- C4 counterexample input: loader and iteration callback both
registered. -/
def c4State : DataCache Unit :=
  Create (some (true, [])) (some fun _ => true)

/-- Witness store with one two-alias record (claims C5/C6). -/
def twoKeyDc : DataCache Unit :=
  let dc0 : DataCache Unit := Create none none
  exState dc0 (AddRec dc0 [Key.intK 1, Key.intK 2] (some ()) true)

/-- The record value held by `twoKeyDc`. -/
def twoKeyRec : Rec Unit :=
  ⟨[Key.intK 1, Key.intK 2], (), true, 0, some false⟩

/-- Witness store with one single-alias record (claim C7). -/
def oneKeyDc : DataCache Unit :=
  let dc0 : DataCache Unit := Create none none
  exState dc0 (AddRec dc0 [Key.intK 1] (some ()) true)

/-- The record value held by `oneKeyDc`. -/
def oneKeyRec : Rec Unit :=
  ⟨[Key.intK 1], (), true, 0, some false⟩

/-- A record whose mutex is not held (claim C9). -/
def unlockedRec : Rec Unit :=
  ⟨[], (), true, 0, some false⟩

/-- A record whose mutex is held (claim C9). -/
def lockedRec : Rec Unit :=
  ⟨[], (), true, 0, some true⟩

/-! ## Association-map lemmas -/

section AssocLemmas

variable {α β : Type} [DecidableEq α]

theorem alookup_ainsert_self (k : α) (v : β) (l : List (α × β)) :
    alookup k (ainsert k v l) = some v := by
  induction l with
  | nil => simp [alookup, ainsert]
  | cons e rest ih =>
    by_cases h : e.1 = k
    · simp [alookup, ainsert, h]
    · simp [alookup, ainsert, h, ih]

theorem alookup_ainsert_ne {k' k : α} (h : k' ≠ k) (v : β) (l : List (α × β)) :
    alookup k' (ainsert k v l) = alookup k' l := by
  have h' : ¬(k = k') := fun he => h he.symm
  induction l with
  | nil => simp [alookup, ainsert, h']
  | cons e rest ih =>
    by_cases he : e.1 = k
    · have hek' : ¬e.1 = k' := fun hh => h' (he ▸ hh)
      simp [alookup, ainsert, he, h', hek']
    · by_cases he' : e.1 = k'
      · simp [alookup, ainsert, he, he', h, h']
      · simp [alookup, ainsert, he, he', ih]

theorem alookup_aerase_self (k : α) (l : List (α × β)) :
    alookup k (aerase k l) = none := by
  induction l with
  | nil => simp [alookup, aerase]
  | cons e rest ih =>
    by_cases h : e.1 = k
    · simp [aerase, h, ih]
    · simp [alookup, aerase, h, ih]

theorem alookup_aerase_ne {k' k : α} (h : k' ≠ k) (l : List (α × β)) :
    alookup k' (aerase k l) = alookup k' l := by
  have h' : ¬(k = k') := fun he => h he.symm
  induction l with
  | nil => simp [aerase]
  | cons e rest ih =>
    by_cases he : e.1 = k
    · subst he
      simp [alookup, aerase, h', ih]
    · simp [alookup, aerase, he, ih]

theorem mem_aerase {e : α × β} {k : α} {l : List (α × β)} :
    e ∈ aerase k l → e ∈ l ∧ e.1 ≠ k := by
  induction l with
  | nil => simp [aerase]
  | cons e2 rest ih =>
    by_cases h : e2.1 = k
    · intro hm
      rcases ih (by simpa [aerase, h] using hm) with ⟨h1, h2⟩
      exact ⟨List.mem_cons_of_mem _ h1, h2⟩
    · intro hm
      rcases (by simpa [aerase, h] using hm : e = e2 ∨ e ∈ aerase k rest) with he | he
      · subst he
        exact ⟨List.mem_cons_self _ _, h⟩
      · rcases ih he with ⟨h1, h2⟩
        exact ⟨List.mem_cons_of_mem _ h1, h2⟩

theorem ainsert_map_fst_of_isSome {k : α} {l : List (α × β)}
    (h : (alookup k l).isSome) (v : β) :
    (ainsert k v l).map Prod.fst = l.map Prod.fst := by
  induction l with
  | nil => simp [alookup] at h
  | cons e rest ih =>
    by_cases he : e.1 = k
    · simp [ainsert, he]
    · have h' : (alookup k rest).isSome := by simpa [alookup, he] using h
      simp [ainsert, he, ih h']

end AssocLemmas

theorem alookup_insertKeys_not_mem {k : Key} {keyList : List Key}
    (h : k ∉ keyList) (c : List (Key × Nat)) (id : Nat) :
    alookup k (insertKeys c id keyList) = alookup k c := by
  induction keyList generalizing c with
  | nil => simp [insertKeys]
  | cons k2 rest ih =>
    have hne : k ≠ k2 := fun he => h (he ▸ List.mem_cons_self _ _)
    have hrest : k ∉ rest := fun hm => h (List.mem_cons_of_mem _ hm)
    rw [insertKeys, ih hrest, alookup_ainsert_ne hne]

theorem alookup_insertKeys_mem {k : Key} {keyList : List Key}
    (h : k ∈ keyList) (c : List (Key × Nat)) (id : Nat) :
    alookup k (insertKeys c id keyList) = some id := by
  induction keyList generalizing c with
  | nil => simp at h
  | cons k2 rest ih =>
    by_cases hm : k ∈ rest
    · rw [insertKeys]
      exact ih hm _
    · have he : k = k2 := by
        rcases List.mem_cons.mp h with h1 | h1
        · exact h1
        · exact absurd h1 hm
      subst he
      rw [insertKeys, alookup_insertKeys_not_mem hm, alookup_ainsert_self]

theorem alookup_eraseKeys_not_mem {k : Key} {keyList : List Key}
    (h : k ∉ keyList) (c : List (Key × Nat)) :
    alookup k (eraseKeys c keyList) = alookup k c := by
  induction keyList generalizing c with
  | nil => simp [eraseKeys]
  | cons k2 rest ih =>
    have hne : k ≠ k2 := fun he => h (he ▸ List.mem_cons_self _ _)
    have hrest : k ∉ rest := fun hm => h (List.mem_cons_of_mem _ hm)
    rw [eraseKeys, ih hrest, alookup_aerase_ne hne]

theorem alookup_eraseKeys_mem {k : Key} {keyList : List Key}
    (h : k ∈ keyList) (c : List (Key × Nat)) :
    alookup k (eraseKeys c keyList) = none := by
  induction keyList generalizing c with
  | nil => simp at h
  | cons k2 rest ih =>
    by_cases hm : k ∈ rest
    · rw [eraseKeys]
      exact ih hm _
    · have he : k = k2 := by
        rcases List.mem_cons.mp h with h1 | h1
        · exact h1
        · exact absurd h1 hm
      subst he
      rw [eraseKeys, alookup_eraseKeys_not_mem hm, alookup_aerase_self]

theorem eraseKeys_eq_nil_of_subset {keyList : List Key} :
    ∀ c : List (Key × Nat), (∀ e ∈ c, e.1 ∈ keyList) → eraseKeys c keyList = [] := by
  induction keyList with
  | nil =>
    intro c h
    match c with
    | [] => rfl
    | e :: rest => exact absurd (h e (List.mem_cons_self _ _)) (List.not_mem_nil _)
  | cons k rest ih =>
    intro c h
    rw [eraseKeys]
    refine ih _ fun e he => ?_
    rcases mem_aerase he with ⟨h1, h2⟩
    rcases List.mem_cons.mp (h e h1) with h3 | h3
    · exact absurd h3 h2
    · exact h3

theorem eraseKeys_self_keys (c : List (Key × Nat)) :
    eraseKeys c (c.map Prod.fst) = [] :=
  eraseKeys_eq_nil_of_subset c fun _ he => List.mem_map_of_mem _ he

theorem firstExisting_eq_none {c : List (Key × Nat)} {keyList : List Key}
    (h : firstExisting c keyList = none) : ∀ k ∈ keyList, alookup k c = none := by
  induction keyList with
  | nil => simp
  | cons k2 rest ih =>
    intro k hk
    by_cases hs : (alookup k2 c).isSome
    · rw [firstExisting, if_pos hs] at h
      exact absurd h (by simp)
    · rw [firstExisting, if_neg hs] at h
      rcases List.mem_cons.mp hk with he | he
      · subst he
        exact Option.not_isSome_iff_eq_none.mp hs
      · exact ih h k he

theorem firstExisting_eq_some {c : List (Key × Nat)} {keyList : List Key} {k : Key}
    (h : firstExisting c keyList = some k) : k ∈ keyList ∧ (alookup k c).isSome := by
  induction keyList with
  | nil => simp [firstExisting] at h
  | cons k2 rest ih =>
    by_cases hs : (alookup k2 c).isSome
    · rw [firstExisting, if_pos hs] at h
      injection h with h
      subst h
      exact ⟨List.mem_cons_self _ _, hs⟩
    · rw [firstExisting, if_neg hs] at h
      rcases ih h with ⟨h1, h2⟩
      exact ⟨List.mem_cons_of_mem _ h1, h2⟩

theorem firstExisting_isNone_of_all_none {c : List (Key × Nat)} {keyList : List Key}
    (h : ∀ k ∈ keyList, alookup k c = none) : firstExisting c keyList = none := by
  induction keyList with
  | nil => rfl
  | cons k2 rest ih =>
    have h2 : alookup k2 c = none := h k2 (List.mem_cons_self _ _)
    rw [firstExisting, if_neg (by simp [h2])]
    exact ih fun k hk => h k (List.mem_cons_of_mem _ hk)

/-! ## Invariant preservation -/

theorem inv_setRec {dc : DataCache P} {id : Nat} {r : Rec P} (r' : Rec P)
    (hr : alookup id dc.recs = some r) (hk : r'.KeyList = r.KeyList) (hInv : Inv dc) :
    Inv { dc with recs := ainsert id r' dc.recs } := by
  refine ⟨hInv.cacheFresh, ?_, ?_⟩
  · intro id2 r2 h2
    by_cases he : id2 = id
    · subst he
      exact hInv.recsFresh _ _ hr
    · rw [alookup_ainsert_ne he] at h2
      exact hInv.recsFresh _ _ h2
  · intro id2 hex
    rcases hInv.sym id2 hex with ⟨r3, hr3, hiff⟩
    by_cases he : id2 = id
    · subst he
      have hr3r : r3 = r := Option.some.inj (hr3.symm.trans hr)
      refine ⟨r', by rw [alookup_ainsert_self], fun k => ?_⟩
      rw [hk, ← hr3r]
      exact hiff k
    · exact ⟨r3, by rw [alookup_ainsert_ne he]; exact hr3, hiff⟩

theorem inv_lockRecIn {dc : DataCache P} (hInv : Inv dc) (id : Nat) :
    Inv (lockRecIn dc id) := by
  cases h : alookup id dc.recs with
  | none => simpa [lockRecIn, h] using hInv
  | some r =>
    have := inv_setRec { r with pRecLock := some true } h rfl hInv
    simpa [lockRecIn, h] using this

theorem lockRecIn_cnt (dc : DataCache P) (id : Nat) :
    (lockRecIn dc id).cnt = dc.cnt := by
  cases h : alookup id dc.recs with
  | none => simp [lockRecIn, h]
  | some r => simp [lockRecIn, h]

theorem inv_newRecState {dc : DataCache P} {keyList : List Key} (p : P)
    (hInv : Inv dc) (hfresh : ∀ k ∈ keyList, alookup k dc.cache = none) :
    Inv (newRecState dc keyList p) := by
  constructor
  · intro k id2 h2
    simp only [newRecState] at h2
    by_cases hm : k ∈ keyList
    · rw [alookup_insertKeys_mem hm] at h2
      have : id2 = dc.nextId := (Option.some.inj h2).symm
      simp [newRecState, this]
    · rw [alookup_insertKeys_not_mem hm] at h2
      exact Nat.lt_trans (hInv.cacheFresh _ _ h2) (Nat.lt_succ_self _)
  · intro id2 r2 h2
    simp only [newRecState] at h2 ⊢
    by_cases he : dc.nextId = id2
    · subst he
      exact Nat.lt_succ_self _
    · simp only [alookup, if_neg he] at h2
      exact Nat.lt_trans (hInv.recsFresh _ _ h2) (Nat.lt_succ_self _)
  · intro id2 hex
    simp only [newRecState] at hex ⊢
    by_cases hid : id2 = dc.nextId
    · subst hid
      refine ⟨⟨keyList, p, true, 0, some false⟩, by simp [alookup], fun k => ?_⟩
      constructor
      · intro hl
        by_cases hm : k ∈ keyList
        · exact hm
        · rw [alookup_insertKeys_not_mem hm] at hl
          exact absurd (hInv.cacheFresh _ _ hl) (Nat.lt_irrefl _)
      · intro hm
        exact alookup_insertKeys_mem hm _ _
    · obtain ⟨k0, hk0⟩ := hex
      have hk0m : k0 ∉ keyList := by
        intro hm
        rw [alookup_insertKeys_mem hm] at hk0
        exact hid (Option.some.inj hk0).symm
      rw [alookup_insertKeys_not_mem hk0m] at hk0
      obtain ⟨r3, hr3, hiff3⟩ := hInv.sym id2 ⟨k0, hk0⟩
      have hid3 : ¬dc.nextId = id2 := by
        intro he
        subst he
        exact absurd (hInv.cacheFresh _ _ hk0) (Nat.lt_irrefl _)
      refine ⟨r3, by simp only [alookup, if_neg hid3]; exact hr3, fun k => ?_⟩
      by_cases hm : k ∈ keyList
      · rw [alookup_insertKeys_mem hm]
        constructor
        · intro hh
          exact absurd (Option.some.inj hh) hid3
        · intro hmem
          have h4 := (hiff3 k).mpr hmem
          rw [hfresh k hm] at h4
          exact absurd h4 (by simp)
      · rw [alookup_insertKeys_not_mem hm]
        exact hiff3 k

theorem inv_reAddState {dc : DataCache P} (originalKey newKey : Key)
    (hInv : Inv dc) (hnew : alookup newKey dc.cache = none) :
    Inv (reAddState dc originalKey newKey) := by
  cases horig : alookup originalKey dc.cache with
  | none => simpa [reAddState, horig] using hInv
  | some id0 =>
    cases hrec : alookup id0 dc.recs with
    | none => simpa [reAddState, horig, hrec] using hInv
    | some r0 =>
      have hid0 : id0 < dc.nextId := hInv.cacheFresh _ _ horig
      obtain ⟨rS, hrS, hiffS⟩ := hInv.sym id0 ⟨originalKey, horig⟩
      have hrSr0 : rS = r0 := Option.some.inj (hrS.symm.trans hrec)
      subst hrSr0
      simp only [reAddState, horig, hrec]
      constructor
      · intro k id2 h2
        by_cases he : k = newKey
        · subst he
          rw [alookup_ainsert_self] at h2
          rw [← Option.some.inj h2]
          exact hid0
        · rw [alookup_ainsert_ne he] at h2
          exact hInv.cacheFresh _ _ h2
      · intro id2 r2 h2
        by_cases he : id2 = id0
        · subst he
          exact hid0
        · rw [alookup_ainsert_ne he] at h2
          exact hInv.recsFresh _ _ h2
      · intro id2 hex
        by_cases he : id2 = id0
        · subst he
          refine ⟨{ rS with KeyList := rS.KeyList ++ [newKey] },
            by rw [alookup_ainsert_self], fun k => ?_⟩
          by_cases hk : k = newKey
          · subst hk
            simp [alookup_ainsert_self]
          · rw [alookup_ainsert_ne hk]
            simp only [List.mem_append, List.mem_singleton]
            constructor
            · intro hl
              exact Or.inl ((hiffS k).mp hl)
            · rintro (hl | hl)
              · exact (hiffS k).mpr hl
              · exact absurd hl hk
        · obtain ⟨k0, hk0⟩ := hex
          have hk0ne : k0 ≠ newKey := by
            intro hh
            subst hh
            rw [alookup_ainsert_self] at hk0
            exact he (Option.some.inj hk0).symm
          rw [alookup_ainsert_ne hk0ne] at hk0
          obtain ⟨r3, hr3, hiff3⟩ := hInv.sym id2 ⟨k0, hk0⟩
          refine ⟨r3, by rw [alookup_ainsert_ne he]; exact hr3, fun k => ?_⟩
          by_cases hk : k = newKey
          · subst hk
            rw [alookup_ainsert_self]
            constructor
            · intro hh
              exact absurd (Option.some.inj hh).symm he
            · intro hmem
              have h4 := (hiff3 k).mpr hmem
              rw [hnew] at h4
              exact absurd h4 (by simp)
          · rw [alookup_ainsert_ne hk]
            exact hiff3 k

theorem inv_deleteRecState {dc : DataCache P} (key : Key) (hInv : Inv dc) :
    Inv (deleteRecState dc key) := by
  cases hkey : alookup key dc.cache with
  | none => simpa [deleteRecState, hkey] using hInv
  | some id0 =>
    cases hrec : alookup id0 dc.recs with
    | none =>
      simp only [deleteRecState, hkey, hrec]
      exact ⟨hInv.cacheFresh, hInv.recsFresh, hInv.sym⟩
    | some r0 =>
      obtain ⟨rS, hrS, hiffS⟩ := hInv.sym id0 ⟨key, hkey⟩
      have hrSr0 : rS = r0 := Option.some.inj (hrS.symm.trans hrec)
      subst hrSr0
      simp only [deleteRecState, hkey, hrec]
      constructor
      · intro k id2 h2
        by_cases hm : k ∈ rS.KeyList
        · rw [alookup_eraseKeys_mem hm] at h2
          exact absurd h2 (by simp)
        · rw [alookup_eraseKeys_not_mem hm] at h2
          exact hInv.cacheFresh _ _ h2
      · exact hInv.recsFresh
      · intro id2 hex
        obtain ⟨k0, hk0⟩ := hex
        have hk0m : k0 ∉ rS.KeyList := by
          intro hm
          rw [alookup_eraseKeys_mem hm] at hk0
          exact absurd hk0 (by simp)
        rw [alookup_eraseKeys_not_mem hk0m] at hk0
        have hid2 : id2 ≠ id0 := by
          intro hh
          subst hh
          exact hk0m ((hiffS k0).mp hk0)
        obtain ⟨r3, hr3, hiff3⟩ := hInv.sym id2 ⟨k0, hk0⟩
        refine ⟨r3, hr3, fun k => ?_⟩
        by_cases hm : k ∈ rS.KeyList
        · rw [alookup_eraseKeys_mem hm]
          constructor
          · intro hh
            exact absurd hh (by simp)
          · intro hmem
            have h4 : alookup k dc.cache = some id2 := (hiff3 k).mpr hmem
            have h5 : alookup k dc.cache = some id0 := (hiffS k).mpr hm
            exact absurd (Option.some.inj (h4.symm.trans h5)) hid2
        · rw [alookup_eraseKeys_not_mem hm]
          exact hiff3 k

theorem inv_setRecActiveState {dc : DataCache P} (key : Key) (b : Bool) (hInv : Inv dc) :
    Inv (setRecActiveState dc key b) := by
  cases hkey : alookup key dc.cache with
  | none => simpa [setRecActiveState, hkey] using hInv
  | some id0 =>
    cases hrec : alookup id0 dc.recs with
    | none => simpa [setRecActiveState, hkey, hrec] using hInv
    | some r0 =>
      have := inv_setRec { r0 with isActive := b } hrec rfl hInv
      simpa [setRecActiveState, hkey, hrec] using this

theorem inv_goodStep {dc dc' : DataCache P} (hInv : Inv dc) (h : GoodStep P dc dc') :
    Inv dc' := by
  cases h with
  | addRec keyList pRec =>
    cases pRec with
    | none => simpa [AddRec, AddRecWOLock, exState] using hInv
    | some p =>
      cases hfe : firstExisting dc.cache keyList with
      | some k => simpa [AddRec, AddRecWOLock, exState, hfe] using hInv
      | none =>
        have hfresh := firstExisting_eq_none hfe
        simpa [AddRec, AddRecWOLock, exState, hfe] using inv_newRecState p hInv hfresh
  | addAndGetRec keyList pRec =>
    cases pRec with
    | none => simpa [AddAndGetRec, AddAndGetRecWOLock, exStateG] using hInv
    | some p =>
      cases hfe : firstExisting dc.cache keyList with
      | some k => simpa [AddAndGetRec, AddAndGetRecWOLock, exStateG, hfe] using hInv
      | none =>
        have hfresh := firstExisting_eq_none hfe
        have h1 := inv_newRecState p hInv hfresh
        cases hh : keyList.head? with
        | none => simpa [AddAndGetRec, AddAndGetRecWOLock, exStateG, hfe, hh] using h1
        | some k0 =>
          cases hl : alookup k0 (newRecState dc keyList p).cache with
          | none =>
            simpa [AddAndGetRec, AddAndGetRecWOLock, exStateG, hfe, hh, hl] using h1
          | some rid =>
            simpa [AddAndGetRec, AddAndGetRecWOLock, exStateG, hfe, hh, hl] using
              inv_lockRecIn h1 rid
  | reAddRec originalKey newKey hnew =>
    cases horig : alookup originalKey dc.cache with
    | none => simpa [ReAddRec, ReAddRecWOLock, exState, horig] using hInv
    | some id0 =>
      simpa [ReAddRec, ReAddRecWOLock, exState, horig] using inv_reAddState originalKey newKey hInv hnew
  | reAddAndGetRec originalKey newKey hnew =>
    cases horig : alookup originalKey dc.cache with
    | none => simpa [ReAddAndGetRec, ReAddAndGetRecWOLock, exStateG, horig] using hInv
    | some id0 =>
      have h1 := inv_reAddState originalKey newKey hInv hnew
      cases hl : alookup newKey (reAddState dc originalKey newKey).cache with
      | none =>
        simpa [ReAddAndGetRec, ReAddAndGetRecWOLock, exStateG, horig, hl] using h1
      | some rid =>
        simpa [ReAddAndGetRec, ReAddAndGetRecWOLock, exStateG, horig, hl] using
          inv_lockRecIn h1 rid
  | deleteRec key =>
    cases hkey : alookup key dc.cache with
    | none => simpa [DeleteRec, exState, hkey] using hInv
    | some id0 =>
      simpa [DeleteRec, exState, hkey] using inv_deleteRecState key hInv
  | deleteRecWOLock key =>
    cases hkey : alookup key dc.cache with
    | none => simpa [DeleteRecWOLock, hkey] using hInv
    | some id0 =>
      simpa [DeleteRecWOLock, hkey] using inv_deleteRecState key hInv
  | getRec key =>
    cases hkey : alookup key dc.cache with
    | none => simpa [GetRec, GetRecWOLock, hkey] using hInv
    | some id0 =>
      simpa [GetRec, GetRecWOLock, hkey] using inv_lockRecIn hInv id0
  | updateRecState key b =>
    cases hkey : alookup key dc.cache with
    | none => simpa [UpdateRecState, UpdateRecStateWOLock, hkey] using hInv
    | some id0 =>
      simpa [UpdateRecState, UpdateRecStateWOLock, hkey] using
        inv_setRecActiveState key b hInv

theorem inv_reachable {dc : DataCache P} (h : Reachable P dc) : Inv dc := by
  induction h with
  | create lf rf =>
    refine ⟨?_, ?_, ?_⟩
    · intro k id h2
      simp [Create, alookup] at h2
    · intro id r h2
      simp [Create, alookup] at h2
    · intro id hex
      obtain ⟨k, hk⟩ := hex
      simp [Create, alookup] at hk
  | step _ hstep ih => exact inv_goodStep ih hstep

/-! ## Claim C1: alias symmetry -/

/-- C1 (amended): alias symmetry holds in every store reachable from
`Create` by successful `AddRec`/`AddAndGetRec` with the existence check on,
`ReAddRec`/`ReAddAndGetRec` whose new key is not yet bound,
`DeleteRec`/`DeleteRecWOLock`, `GetRec` and `UpdateRecState` — for every
reachable record, the keys resolving to it are exactly its `KeyList`.  As
stated over *all* operations the claim is false: `DeleteKey` (and
`ForceAddRec`'s displacement) leave stale aliases in `KeyList`
(`c1_delete_key_breaks_alias_symmetry`). -/
theorem c1_alias_symmetry_reachable {dc : DataCache P} (h : Reachable P dc) :
    AliasSym dc :=
  (inv_reachable h).sym

/-- C1 witness: alias symmetry at a concrete reachable store. -/
theorem c1_alias_symmetry_witness : AliasSym (Create (P := Unit) none none) :=
  c1_alias_symmetry_reachable (Reachable.create none none)

/-- C1 counterexample: add one record under aliases `1, 2`, then
`DeleteKey 1`.  Key `2` still resolves to the record, whose `KeyList` still
contains the deleted key `1`, so the key set and the alias list differ after
a `DeleteKey` — refuting the claim's "before and after every operation". -/
theorem c1_delete_key_breaks_alias_symmetry : ¬AliasSym c1CexState := by
  intro h
  obtain ⟨r, hr, hiff⟩ := h 0 ⟨Key.intK 2, by decide⟩
  have hrv : twoKeyRec = r :=
    Option.some.inj ((by decide : alookup 0 c1CexState.recs = some twoKeyRec).symm.trans hr)
  have h2 : alookup (Key.intK 1) c1CexState.cache = some 0 :=
    (hiff (Key.intK 1)).mpr (by rw [← hrv]; decide)
  exact absurd h2 (by decide)

/-! ## Claim C2: ForceAdd's positional delete -/

/-- C2: evaluation at the failing input.  `c2Pre` holds a record under the
integer key `0` and another under `"a"`; `ForceAddRec(["a"], p)` is supposed
to displace only the supplied key `"a"`, but the source's loop deletes
`cache[i]` for the loop index `i`, so the mapping of the unrelated key `0`
disappears — the spec's §9 "positional delete" defect. -/
theorem c2_force_add_positional_delete :
    alookup (Key.intK 0) c2Pre.cache = some 0 ∧
    Key.intK 0 ∉ [Key.strK "a"] ∧
    alookup (Key.intK 0) c2Post.cache = none := by
  exact ⟨by decide, by decide, by decide⟩

/-! ## Claim C3: handler calls per record vs per alias -/

/-- C3 counterexample: one record is loaded (under two aliases), yet
`Iterate` invokes the handler twice — once per cache map entry, not once per
loaded record. -/
theorem c3_iterate_calls_per_alias_cex :
    c3State.cnt = 1 ∧ (Iterate c3State "" true).calls.length = 2 ∧
    (Iterate c3State "" true).calls.length ≠ Int.toNat c3State.cnt := by
  exact ⟨rfl, rfl, by decide⟩

theorem loadRecords_reciteratefn (recList : List (Payload P)) :
    ∀ dc : DataCache P, (loadRecords dc recList).reciteratefn = dc.reciteratefn := by
  induction recList with
  | nil => intro dc; rfl
  | cons pl rest ih => intro dc; rw [loadRecords]; exact ih _

/-- C3 (amended): a successful `Iterate`, and the iteration phase of a
successful `LoadAndIterate`, invoke the handler exactly once per cache map
entry — i.e. once per key alias (for `LoadAndIterate`, per entry of the
just-loaded cache); that equals once per loaded Record only when every
record has a single alias. -/
theorem c3_iterate_calls_eq_cache_entries (dc : DataCache P) (cacheName : String)
    (prov b1 b2 : Bool) (recList : List (Payload P))
    (hflag : dc.singletonFlag = false) (hit : dc.reciteratefn.isSome) :
    ((Iterate dc cacheName prov).ok = true ∧
     (Iterate dc cacheName prov).err = none ∧
     (Iterate dc cacheName prov).calls
       = dc.cache.map (fun e => (alookup e.2 dc.recs).map Rec.PDataRec) ∧
     (Iterate dc cacheName prov).calls.length = dc.cache.length) ∧
    (dc.loadfn = some (true, recList) →
     (LoadAndIterate dc b1 b2).ok = true ∧
     (LoadAndIterate dc b1 b2).err = none ∧
     (LoadAndIterate dc b1 b2).calls
       = (loadedState dc recList).cache.map
           (fun e => (alookup e.2 (loadedState dc recList).recs).map Rec.PDataRec) ∧
     (LoadAndIterate dc b1 b2).calls.length = (loadedState dc recList).cache.length) := by
  obtain ⟨f, hf⟩ := Option.isSome_iff_exists.mp hit
  constructor
  · simp [Iterate, hflag, hf]
  · intro hload
    simp [LoadAndIterate, hflag, hload, loadedState, loadRecords_reciteratefn, hf]

/-- C3 witness: the amended counts at a concrete store carrying a loader
and an iteration callback, for both `Iterate` and `LoadAndIterate`. -/
theorem c3_iterate_calls_witness :
    ((Iterate c3Base "" true).ok = true ∧
     (Iterate c3Base "" true).err = none ∧
     (Iterate c3Base "" true).calls
       = c3Base.cache.map (fun e => (alookup e.2 c3Base.recs).map Rec.PDataRec) ∧
     (Iterate c3Base "" true).calls.length = c3Base.cache.length) ∧
    ((LoadAndIterate c3Base true true).ok = true ∧
     (LoadAndIterate c3Base true true).err = none ∧
     (LoadAndIterate c3Base true true).calls
       = (loadedState c3Base c3RecList).cache.map
           (fun e => (alookup e.2 (loadedState c3Base c3RecList).recs).map Rec.PDataRec) ∧
     (LoadAndIterate c3Base true true).calls.length
       = (loadedState c3Base c3RecList).cache.length) :=
  ⟨(c3_iterate_calls_eq_cache_entries c3Base "" true true true c3RecList rfl rfl).1,
   (c3_iterate_calls_eq_cache_entries c3Base "" true true true c3RecList rfl rfl).2 rfl⟩

/-! ## Claim C4: Load's one-shot guard -/

theorem loadBody_st_reciteratefn (dc : DataCache P) (b : Bool) :
    (loadBody dc b).st.reciteratefn = dc.reciteratefn := by
  by_cases hflag : dc.singletonFlag
  · simp [loadBody, hflag]
  · cases hl : dc.loadfn with
    | none => cases b <;> simp [loadBody, hflag, hl]
    | some pr =>
      obtain ⟨isOK, recList⟩ := pr
      cases isOK <;> simp [loadBody, hflag, hl, loadRecords_reciteratefn]

theorem setFlag_eq_self {dc : DataCache P} (h : dc.singletonFlag = true) :
    { dc with singletonFlag := true } = dc := by
  cases dc
  simp_all

/-- C4 counterexample: with both a loader and an iteration callback
registered, a completed `Load` does not set the one-shot flag (the deferred
epilogue only sets it when `reciteratefn == nil`), so a second `Load`
succeeds instead of failing `AlreadyLoaded`. -/
theorem c4_second_load_succeeds_with_iterator :
    (Load c4State true).ok = true ∧
    (Load (Load c4State true).st true).ok = true ∧
    (Load (Load c4State true).st true).err = none := by
  exact ⟨rfl, rfl, rfl⟩

/-- C4 (amended): on a store with *no* registered iteration callback, any
completed first `Load` sets the one-shot flag, and a second `Load` fails
`AlreadyLoaded` and leaves the store exactly as it was.  (With an iterator
registered, `Load` leaves the flag to `Iterate`/`LoadAndIterate` —
`c4_second_load_succeeds_with_iterator`.) -/
theorem c4_load_one_shot_without_iterator (dc : DataCache P) (b1 b2 : Bool)
    (h : dc.reciteratefn = none) :
    (Load dc b1).st.singletonFlag = true ∧
    (Load (Load dc b1).st b2).ok = false ∧
    (Load (Load dc b1).st b2).err = some CacheErr.alreadyLoaded ∧
    (Load (Load dc b1).st b2).st = (Load dc b1).st := by
  have h1 : (loadBody dc b1).st.reciteratefn = none := by
    rw [loadBody_st_reciteratefn]; exact h
  obtain ⟨s1, hs1⟩ : ∃ s1, Load dc b1 = s1 := ⟨_, rfl⟩
  have hflag : s1.st.singletonFlag = true := by
    rw [← hs1]; simp [Load, loadDefer, h1]
  have hrf1 : s1.st.reciteratefn = none := by
    rw [← hs1]; simp [Load, loadDefer, h1]
  have hbody2 : loadBody s1.st b2 = ⟨s1.st, false, some CacheErr.alreadyLoaded⟩ := by
    simp [loadBody, hflag]
  rw [hs1]
  refine ⟨hflag, ?_, ?_, ?_⟩
  · simp [Load, hbody2]
  · simp [Load, hbody2]
  · have hst : (Load s1.st b2).st = loadDefer s1.st := by simp [Load, hbody2]
    rw [hst]
    unfold loadDefer
    rw [if_pos (by rw [hrf1]; rfl)]
    exact setFlag_eq_self hflag

/-- C4 witness: the amended one-shot behaviour at a concrete store without
an iteration callback. -/
theorem c4_load_one_shot_witness :
    (Load (Create (P := Unit) none none) false).st.singletonFlag = true ∧
    (Load (Load (Create (P := Unit) none none) false).st false).ok = false ∧
    (Load (Load (Create (P := Unit) none none) false).st false).err
      = some CacheErr.alreadyLoaded ∧
    (Load (Load (Create (P := Unit) none none) false).st false).st
      = (Load (Create (P := Unit) none none) false).st :=
  c4_load_one_shot_without_iterator (Create none none) false false rfl

/-! ## Claim C5: KeyExists iff some key is bound; failure mutates nothing -/

theorem addRec_checked_eq {dc : DataCache P} {keyList : List Key} {p : P} :
    AddRec dc keyList (some p) true =
      match firstExisting dc.cache keyList with
      | some k => .error (.keyExists k)
      | none => .ok (newRecState dc keyList p, dc.cnt + 1) := by
  simp [AddRec, AddRecWOLock]

theorem addAndGetRec_checked_not_error {dc : DataCache P} {keyList : List Key}
    {p : P} (hfe : firstExisting dc.cache keyList = none) (e : CacheErr) :
    ¬AddAndGetRec dc keyList (some p) true = .error e := by
  intro he
  simp only [AddAndGetRec, AddAndGetRecWOLock, hfe, if_true] at he
  cases hh : keyList.head? with
  | none => rw [hh] at he; exact absurd he (by simp)
  | some k0 =>
    rw [hh] at he
    cases hl : alookup k0 (newRecState dc keyList p).cache with
    | none => simp [hl] at he
    | some rid => simp [hl] at he

/-- C5: with the existence check on, `AddRec` and `AddAndGetRec` fail — and
then fail with `KeyExists` — exactly when some supplied key already resolves
to a record, and a failing call leaves the store untouched (the error return
precedes every mutation in the source).  The spec requires a non-empty key
list; Go would panic indexing `keyList[0]` on an empty list in the `AndGet`
variant, which the hypothesis excludes. -/
theorem c5_add_key_exists_iff (dc : DataCache P) (keyList : List Key) (p : P)
    (hne : keyList ≠ []) :
    ((∃ e, AddRec dc keyList (some p) true = .error e) ↔
       ∃ k ∈ keyList, (alookup k dc.cache).isSome) ∧
    (∀ e, AddRec dc keyList (some p) true = .error e →
       (∃ k ∈ keyList, e = CacheErr.keyExists k ∧ (alookup k dc.cache).isSome) ∧
       exState dc (AddRec dc keyList (some p) true) = dc) ∧
    ((∃ e, AddAndGetRec dc keyList (some p) true = .error e) ↔
       ∃ k ∈ keyList, (alookup k dc.cache).isSome) ∧
    (∀ e, AddAndGetRec dc keyList (some p) true = .error e →
       (∃ k ∈ keyList, e = CacheErr.keyExists k ∧ (alookup k dc.cache).isSome) ∧
       exStateG dc (AddAndGetRec dc keyList (some p) true) = dc) := by
  cases hfe : firstExisting dc.cache keyList with
  | some k =>
    obtain ⟨hk1, hk2⟩ := firstExisting_eq_some hfe
    have ha : AddRec dc keyList (some p) true = .error (.keyExists k) := by
      rw [addRec_checked_eq, hfe]
    have hg : AddAndGetRec dc keyList (some p) true = .error (.keyExists k) := by
      simp [AddAndGetRec, AddAndGetRecWOLock, hfe]
    refine ⟨⟨fun _ => ⟨k, hk1, hk2⟩, fun _ => ⟨_, ha⟩⟩, ?_,
      ⟨fun _ => ⟨k, hk1, hk2⟩, fun _ => ⟨_, hg⟩⟩, ?_⟩
    · intro e he
      rw [ha] at he
      have he' : CacheErr.keyExists k = e := Except.error.inj he
      exact ⟨⟨k, hk1, he'.symm, hk2⟩, by rw [ha]; rfl⟩
    · intro e he
      rw [hg] at he
      have he' : CacheErr.keyExists k = e := Except.error.inj he
      exact ⟨⟨k, hk1, he'.symm, hk2⟩, by rw [hg]; rfl⟩
  | none =>
    have hfresh := firstExisting_eq_none hfe
    have ha : AddRec dc keyList (some p) true = .ok (newRecState dc keyList p, dc.cnt + 1) := by
      rw [addRec_checked_eq, hfe]
    refine ⟨⟨?_, ?_⟩, ?_, ⟨?_, ?_⟩, ?_⟩
    · rintro ⟨e, he⟩
      rw [ha] at he
      exact absurd he (by simp)
    · rintro ⟨k, hk, hs⟩
      rw [hfresh k hk] at hs
      exact absurd hs (by simp)
    · intro e he
      rw [ha] at he
      exact absurd he (by simp)
    · rintro ⟨e, he⟩
      exact absurd he (addAndGetRec_checked_not_error hfe e)
    · rintro ⟨k, hk, hs⟩
      rw [hfresh k hk] at hs
      exact absurd hs (by simp)
    · intro e he
      exact absurd he (addAndGetRec_checked_not_error hfe e)

/-- C5 witness: the two behaviours at a concrete store holding keys `1, 2`. -/
theorem c5_add_key_exists_witness :
    ((∃ e, AddRec twoKeyDc [Key.intK 1] (some ()) true = .error e) ↔
       ∃ k ∈ [Key.intK 1], (alookup k twoKeyDc.cache).isSome) ∧
    (∀ e, AddRec twoKeyDc [Key.intK 1] (some ()) true = .error e →
       (∃ k ∈ [Key.intK 1], e = CacheErr.keyExists k ∧ (alookup k twoKeyDc.cache).isSome) ∧
       exState twoKeyDc (AddRec twoKeyDc [Key.intK 1] (some ()) true) = twoKeyDc) ∧
    ((∃ e, AddAndGetRec twoKeyDc [Key.intK 1] (some ()) true = .error e) ↔
       ∃ k ∈ [Key.intK 1], (alookup k twoKeyDc.cache).isSome) ∧
    (∀ e, AddAndGetRec twoKeyDc [Key.intK 1] (some ()) true = .error e →
       (∃ k ∈ [Key.intK 1], e = CacheErr.keyExists k ∧ (alookup k twoKeyDc.cache).isSome) ∧
       exStateG twoKeyDc (AddAndGetRec twoKeyDc [Key.intK 1] (some ()) true) = twoKeyDc) :=
  c5_add_key_exists_iff twoKeyDc [Key.intK 1] () (by decide)

/-! ## Claim C6: DeleteRec -/

theorem deleteRecState_cnt {dc : DataCache P} {key : Key} {id : Nat}
    (h : alookup key dc.cache = some id) :
    (deleteRecState dc key).cnt = dc.cnt - 1 := by
  cases hrec : alookup id dc.recs with
  | none => simp [deleteRecState, h, hrec]
  | some r => simp [deleteRecState, h, hrec]

/-- C6: `DeleteRec` on an absent key fails with key-not-found and changes
nothing; on a bound key it removes every alias of the target record from the
map and decrements the counter by one, so no formerly-aliased key resolves
afterward. -/
theorem c6_delete_rec (dc : DataCache P) (key : Key) (id : Nat) (r : Rec P) :
    (alookup key dc.cache = none →
       DeleteRec dc key = .error (CacheErr.keyNotFound key) ∧
       deleteRecState dc key = dc) ∧
    (alookup key dc.cache = some id → alookup id dc.recs = some r →
       DeleteRec dc key = .ok (deleteRecState dc key, dc.cnt - 1) ∧
       (deleteRecState dc key).cnt = dc.cnt - 1 ∧
       ∀ k2 ∈ r.KeyList, alookup k2 (deleteRecState dc key).cache = none) := by
  constructor
  · intro h
    exact ⟨by simp [DeleteRec, h], by simp [deleteRecState, h]⟩
  · intro h hrec
    refine ⟨by simp [DeleteRec, h], deleteRecState_cnt h, ?_⟩
    intro k2 hk2
    simp only [deleteRecState, h, hrec]
    exact alookup_eraseKeys_mem hk2 _

/-- C6 witness: both branches at a concrete store. -/
theorem c6_delete_rec_witness :
    (DeleteRec twoKeyDc (Key.intK 5) = .error (CacheErr.keyNotFound (Key.intK 5)) ∧
       deleteRecState twoKeyDc (Key.intK 5) = twoKeyDc) ∧
    (DeleteRec twoKeyDc (Key.intK 1)
         = .ok (deleteRecState twoKeyDc (Key.intK 1), twoKeyDc.cnt - 1) ∧
       (deleteRecState twoKeyDc (Key.intK 1)).cnt = twoKeyDc.cnt - 1 ∧
       ∀ k2 ∈ twoKeyRec.KeyList,
         alookup k2 (deleteRecState twoKeyDc (Key.intK 1)).cache = none) :=
  ⟨(c6_delete_rec twoKeyDc (Key.intK 5) 0 twoKeyRec).1 rfl,
   (c6_delete_rec twoKeyDc (Key.intK 1) 0 twoKeyRec).2 rfl rfl⟩

/-! ## Claim C7: ReAddRec -/

/-- C7: `ReAddRec` (the same transformer as `ReAddRecWOLock`) fails with
key-not-found and changes nothing when the original key is absent; otherwise
it appends the new key to the target record's alias list, maps the new key
to that same record, keeps the counter, allocates no record (same identifier
set, same allocation counter). -/
theorem c7_readd_rec (dc : DataCache P) (originalKey newKey : Key) (id : Nat)
    (r : Rec P) :
    (alookup originalKey dc.cache = none →
       ReAddRec dc originalKey newKey = .error (CacheErr.keyNotFound originalKey) ∧
       reAddState dc originalKey newKey = dc) ∧
    (alookup originalKey dc.cache = some id → alookup id dc.recs = some r →
       ReAddRec dc originalKey newKey = .ok (reAddState dc originalKey newKey, dc.cnt) ∧
       alookup id (reAddState dc originalKey newKey).recs
         = some { r with KeyList := r.KeyList ++ [newKey] } ∧
       alookup newKey (reAddState dc originalKey newKey).cache = some id ∧
       (reAddState dc originalKey newKey).cnt = dc.cnt ∧
       (reAddState dc originalKey newKey).nextId = dc.nextId ∧
       (reAddState dc originalKey newKey).recs.map Prod.fst = dc.recs.map Prod.fst) := by
  constructor
  · intro h
    exact ⟨by simp [ReAddRec, ReAddRecWOLock, h], by simp [reAddState, h]⟩
  · intro h hrec
    refine ⟨by simp [ReAddRec, ReAddRecWOLock, h], ?_, ?_, ?_, ?_, ?_⟩
    · simp only [reAddState, h, hrec]
      rw [alookup_ainsert_self]
    · simp only [reAddState, h, hrec]
      rw [alookup_ainsert_self]
    · simp [reAddState, h, hrec]
    · simp [reAddState, h, hrec]
    · simp only [reAddState, h, hrec]
      exact ainsert_map_fst_of_isSome (by simp [hrec]) _

/-- C7 witness: both branches at a concrete store. -/
theorem c7_readd_rec_witness :
    (ReAddRec oneKeyDc (Key.intK 7) (Key.intK 9)
         = .error (CacheErr.keyNotFound (Key.intK 7)) ∧
       reAddState oneKeyDc (Key.intK 7) (Key.intK 9) = oneKeyDc) ∧
    (ReAddRec oneKeyDc (Key.intK 1) (Key.intK 9)
         = .ok (reAddState oneKeyDc (Key.intK 1) (Key.intK 9), oneKeyDc.cnt) ∧
       alookup 0 (reAddState oneKeyDc (Key.intK 1) (Key.intK 9)).recs
         = some { oneKeyRec with KeyList := oneKeyRec.KeyList ++ [Key.intK 9] } ∧
       alookup (Key.intK 9) (reAddState oneKeyDc (Key.intK 1) (Key.intK 9)).cache
         = some 0 ∧
       (reAddState oneKeyDc (Key.intK 1) (Key.intK 9)).cnt = oneKeyDc.cnt ∧
       (reAddState oneKeyDc (Key.intK 1) (Key.intK 9)).nextId = oneKeyDc.nextId ∧
       (reAddState oneKeyDc (Key.intK 1) (Key.intK 9)).recs.map Prod.fst
         = oneKeyDc.recs.map Prod.fst) :=
  ⟨(c7_readd_rec oneKeyDc (Key.intK 7) (Key.intK 9) 0 oneKeyRec).1 rfl,
   (c7_readd_rec oneKeyDc (Key.intK 1) (Key.intK 9) 0 oneKeyRec).2 rfl rfl⟩

/-! ## Claim C8: counter algebra -/

theorem newRecState_cnt (dc : DataCache P) (keyList : List Key) (p : P) :
    (newRecState dc keyList p).cnt = dc.cnt + 1 := rfl

theorem applyOp_cnt (dc : DataCache P) (op : CacheOp P) :
    (applyOp dc op).1.cnt =
      dc.cnt + (if (applyOp dc op).2.1 then 1 else 0)
        - (if (applyOp dc op).2.2 then 1 else 0) := by
  cases op with
  | add keyList pRec flag =>
    cases pRec with
    | none => simp [applyOp, AddRec, AddRecWOLock]
    | some p =>
      cases hfe : (if flag then firstExisting dc.cache keyList else none) with
      | some k => simp [applyOp, AddRec, AddRecWOLock, hfe]
      | none => simp [applyOp, AddRec, AddRecWOLock, hfe, newRecState_cnt]
  | forceAdd keyList pRec =>
    cases pRec with
    | none => simp [applyOp, ForceAddRec, ForceAddRecWOLock]
    | some p => simp [applyOp, ForceAddRec, ForceAddRecWOLock, newRecState_cnt]
  | addAndGet keyList pRec flag =>
    cases pRec with
    | none => simp [applyOp, AddAndGetRec, AddAndGetRecWOLock]
    | some p =>
      cases hfe : (if flag then firstExisting dc.cache keyList else none) with
      | some k => simp [applyOp, AddAndGetRec, AddAndGetRecWOLock, hfe]
      | none =>
        cases hh : keyList.head? with
        | none => simp [applyOp, AddAndGetRec, AddAndGetRecWOLock, hfe, hh, newRecState_cnt]
        | some k0 =>
          cases hl : alookup k0 (newRecState dc keyList p).cache with
          | none =>
            simp [applyOp, AddAndGetRec, AddAndGetRecWOLock, hfe, hh, hl, newRecState_cnt]
          | some rid =>
            simp [applyOp, AddAndGetRec, AddAndGetRecWOLock, hfe, hh, hl,
              lockRecIn_cnt, newRecState_cnt]
  | forceAddAndGet keyList pRec =>
    cases pRec with
    | none => simp [applyOp, ForceAddAndGetRec, ForceAddAndGetRecWOLock]
    | some p =>
      cases hh : keyList.head? with
      | none => simp [applyOp, ForceAddAndGetRec, ForceAddAndGetRecWOLock, hh, newRecState_cnt]
      | some k0 =>
        cases hl : alookup k0
            (newRecState { dc with cache := forceDeleteLoop dc.cache keyList 0 }
              keyList p).cache with
        | none =>
          simp [applyOp, ForceAddAndGetRec, ForceAddAndGetRecWOLock, hh, hl, newRecState_cnt]
        | some rid =>
          simp [applyOp, ForceAddAndGetRec, ForceAddAndGetRecWOLock, hh, hl,
            lockRecIn_cnt, newRecState_cnt]
  | delRec key =>
    cases hkey : alookup key dc.cache with
    | none => simp [applyOp, DeleteRec, hkey]
    | some id => simp [applyOp, DeleteRec, hkey, deleteRecState_cnt hkey]

theorem runOps_cnt (ops : List (CacheOp P)) :
    ∀ dc : DataCache P,
      (runOps dc ops).1.cnt =
        dc.cnt + ((runOps dc ops).2.1 : Int) - ((runOps dc ops).2.2 : Int) := by
  induction ops with
  | nil => intro dc; simp [runOps]
  | cons op rest ih =>
    intro dc
    have h1 := applyOp_cnt dc op
    have h2 := ih (applyOp dc op).1
    simp only [runOps]
    rw [h2, h1]
    cases (applyOp dc op).2.1 <;> cases (applyOp dc op).2.2 <;> push_cast <;> ring

/-- C8: from a fresh store, after any interleaving of full adds
(`AddRec`/`ForceAddRec`/`AddAndGetRec`/`ForceAddAndGetRec`; the `WOLock`
variants are the same state transformers) and `DeleteRec` calls, the record
counter equals the number of successful adds minus the number of successful
deletes — each call counted once, regardless of how many aliases it
carries. -/
theorem c8_counter_is_adds_minus_deletes (lf : Option (Bool × List (Payload P)))
    (rf : Option (P → Bool)) (ops : List (CacheOp P)) :
    (runOps (Create lf rf) ops).1.cnt =
      ((runOps (Create lf rf) ops).2.1 : Int) - ((runOps (Create lf rf) ops).2.2 : Int) := by
  have h := runOps_cnt ops (Create lf rf)
  simpa [Create] using h

/-! ## Claim C9: RecUnlock is a no-op on an unheld lock -/

/-- C9: `RecUnlock` on a nil record or nil mutex does nothing; on an unheld
mutex it inspects the state and leaves the record unchanged (no error, no
panic); on a held mutex it releases it. -/
theorem c9_rec_unlock (r : Rec P) :
    RecUnlock (P := P) none = none ∧
    (r.pRecLock = none → RecUnlock (some r) = some r) ∧
    (r.pRecLock = some false → RecUnlock (some r) = some r) ∧
    (r.pRecLock = some true →
       RecUnlock (some r) = some { r with pRecLock := some false }) := by
  refine ⟨rfl, ?_, ?_, ?_⟩ <;> intro h <;> simp [RecUnlock, h]

/-- C9 witness: unlocking an unheld and a held record. -/
theorem c9_rec_unlock_witness :
    RecUnlock (some unlockedRec) = some unlockedRec ∧
    RecUnlock (some lockedRec) = some { lockedRec with pRecLock := some false } :=
  ⟨(c9_rec_unlock unlockedRec).2.2.1 rfl, (c9_rec_unlock lockedRec).2.2.2 rfl⟩

/-! ## Claim C10: DeleteCache empties the map but keeps the counter -/

/-- C10: `DeleteCache`/`DeleteCacheWOLock` return true and delete every key
from the map, while the record counter keeps its pre-deletion value, which
`GetCnt` still reports. -/
theorem c10_delete_cache_keeps_cnt (dc : DataCache P) :
    (DeleteCache dc).2 = true ∧
    (DeleteCache dc).1.cache = [] ∧
    (DeleteCache dc).1.cnt = dc.cnt ∧
    (DeleteCacheWOLock dc).2 = true ∧
    (DeleteCacheWOLock dc).1.cache = [] ∧
    GetCnt (DeleteCache dc).1 = (true, dc.cnt) := by
  refine ⟨rfl, ?_, rfl, rfl, ?_, ?_⟩
  · simp [DeleteCache, DeleteCacheWOLock, eraseKeys_self_keys]
  · simp [DeleteCacheWOLock, eraseKeys_self_keys]
  · simp [GetCnt, DeleteCache, DeleteCacheWOLock]

end Datacache
